import Mathlib

set_option maxHeartbeats 1000000

/-!
Verification development for the web-shell-emulator core.

The TypeScript sources (`src/parser.ts`, `src/shell.ts`, `src/types.ts`,
`src/backends/binfs.ts`, `src/commands/cd.ts`) are embedded shallowly:
JavaScript strings become `List Char`, the mutable shell state becomes an
explicit record threaded through the functions, the virtual filesystem and
the mount table become function-valued parameters, and JavaScript `Map`s
become association lists with first-match lookup and update-in-place
semantics.  Fallible operations return `Option`/`Except`.
-/

/-- JavaScript strings are modelled as lists of UTF-16-ish characters. -/
abbrev Str := List Char

/-- The single-quote character (code point 39). -/
def sqC : Char := Char.ofNat 39

/-- The backtick character (code point 96). -/
def bqC : Char := Char.ofNat 96

/-- Code points matched by the JavaScript regexp class `\s` (whitespace),
used by `String.prototype.trim` and by `split(/\s+/)`. -/
def jsWsCodes : List Nat :=
  [9, 10, 11, 12, 13, 32, 160, 5760, 8192, 8193, 8194, 8195, 8196, 8197,
   8198, 8199, 8200, 8201, 8202, 8232, 8233, 8239, 8287, 12288, 65279]

/-- Whether a character is JavaScript whitespace. -/
def isJsWs (c : Char) : Bool := jsWsCodes.contains c.toNat

/-- `String.prototype.trim`: strip JS whitespace from both ends. -/
def jsTrim (s : Str) : Str :=
  ((s.dropWhile isJsWs).reverse.dropWhile isJsWs).reverse

/-- JavaScript truthiness for an optional string: `x || d` falls through to
`d` when `x` is `undefined` or the empty string. -/
def jsOr (x : Option Str) (d : Str) : Str :=
  match x with
  | some s => if s = [] then d else s
  | none => d

/-- `String.prototype.split(sep)` for a one-character separator.  As in
JavaScript, the result is never empty and keeps empty fragments
(`"".split(":") = [""]`). -/
def jsSplitChar (sep : Char) : Str → List Str
  | [] => [[]]
  | c :: rest =>
    if c = sep then [] :: jsSplitChar sep rest
    else
      match jsSplitChar sep rest with
      | t :: ts => (c :: t) :: ts
      | [] => [[c]]

/-!
## Parser (`src/parser.ts`)
-/

/-- Classified parser failures: `UnsupportedSyntaxError` (carrying the name
of the rejected construct) and `ParseError` (malformed quoting).  The
`UnsupportedSyntaxError` message is `"Unsupported syntax: " ++ feature`. -/
inductive ParseErr where
  | unsupported (feature : String)
  | parseError (msg : String)
deriving DecidableEq, Repr

/-- `checkUnsupportedSyntax` from `src/parser.ts` (lines 56–118): a
char-by-char pre-scan tracking single-quote, double-quote and escape state;
returns the first classified failure, or `none` when the input is clean.
(The source's `c === '|' && next === '|'` branch is dead code — the plain
`'|'` check above it fires first — and is therefore not reachable here
either.) -/
def checkUnsupported : Bool → Bool → Bool → Str → Option ParseErr
  | inS, inD, _, [] =>
    if inS then some (.parseError "Unterminated single quote")
    else if inD then some (.parseError "Unterminated double quote")
    else none
  | inS, inD, esc, c :: rest =>
    if esc then checkUnsupported inS inD false rest
    else if c = '\\' ∧ inS = false then checkUnsupported inS inD true rest
    else if c = sqC ∧ inD = false then checkUnsupported (!inS) inD false rest
    else if c = '"' ∧ inS = false then checkUnsupported inS (!inD) false rest
    else if inS = false ∧ inD = false then
      if c = '|' then some (.unsupported "pipes (|)")
      else if c = '>' ∨ c = '<' then some (.unsupported "redirections (>, <, >>)")
      else if c = '&' ∧ rest.head? = some '&' then some (.unsupported "logical AND (&&)")
      else if c = ';' then some (.unsupported "command chaining (;)")
      else if c = bqC then some (.unsupported "command substitution (``)")
      else if c = '$' ∧ rest.head? = some '(' then some (.unsupported "command substitution ($())")
      else checkUnsupported inS inD false rest
    else checkUnsupported inS inD false rest

/-- The worker loop of `tokenize` from `src/parser.ts` (lines 120–206).
State: current token, in-single-quote, in-double-quote, escaped, and
`hasContent` (whether empty quotes were seen, so `""` yields an empty
token).  Completed tokens are emitted in order. -/
def tokGo : Str → Bool → Bool → Bool → Bool → Str → List Str
  | current, _, _, _, hasC, [] =>
    if current ≠ [] ∨ hasC = true then [current] else []
  | current, inS, inD, esc, hasC, c :: rest =>
    if esc then
      let cur2 :=
        if inD then
          if c = '"' ∨ c = '\\' ∨ c = '$' ∨ c = bqC then current ++ [c]
          else if c = 'n' then current ++ ['\n']
          else if c = 't' then current ++ ['\t']
          else if c = 'r' then current ++ ['\r']
          else current ++ ['\\', c]
        else if inS = false then current ++ [c]
        else current ++ ['\\', c]
      tokGo cur2 inS inD false hasC rest
    else if c = '\\' ∧ inS = false then tokGo current inS inD true hasC rest
    else if c = sqC ∧ inD = false then tokGo current (!inS) inD false true rest
    else if c = '"' ∧ inS = false then tokGo current inS (!inD) false true rest
    else if inS = false ∧ inD = false ∧ isJsWs c = true then
      if current ≠ [] ∨ hasC = true then current :: tokGo [] inS inD false false rest
      else tokGo current inS inD false hasC rest
    else tokGo (current ++ [c]) inS inD false true rest

/-- `tokenize` from `src/parser.ts`: split a command line into tokens. -/
def tokenize (input : Str) : List Str := tokGo [] false false false false input

/-- The `ParsedCommand` record: command name and argument list. -/
structure Parsed where
  name : Str
  args : List Str
deriving DecidableEq, Repr

deriving instance DecidableEq for Except

/-- `parseCommand` from `src/parser.ts` (lines 36–54): trim, return `none`
for blank input, run the unsupported-syntax pre-scan (its failure is
thrown), then tokenize; the first token is the command name. -/
def parseCommand (input : Str) : Except ParseErr (Option Parsed) :=
  let trimmed := jsTrim input
  if trimmed = [] then .ok none
  else
    match checkUnsupported false false false trimmed with
    | some e => .error e
    | none =>
      match tokenize trimmed with
      | [] => .ok none
      | n :: rest => .ok (some ⟨n, rest⟩)

/-!
## Claim-side reading of "unquoted rejected construct" (for C5)

`hasUnquotedOp` is written from the specification's words, not from
`checkUnsupportedSyntax`: an occurrence of `|`, `<`, `>`, `&&`, `;`,
backtick or `$(` counts when it is not enclosed in single or double quotes
and not escaped by a backslash (backslash being the third shell quoting
mechanism).  It merely scans for such an occurrence; it neither names
constructs nor reports quoting errors.
-/

/-- Is `c` (with lookahead `next`) one of the rejected constructs? -/
def isRejectedAt (c : Char) (next : Option Char) : Bool :=
  decide (c = '|' ∨ c = '>' ∨ c = '<' ∨ (c = '&' ∧ next = some '&') ∨
    c = ';' ∨ c = bqC ∨ (c = '$' ∧ next = some '('))

/-- Does the input contain an unquoted, unescaped rejected construct? -/
def hasUnquotedOp : Bool → Bool → Bool → Str → Bool
  | _, _, _, [] => false
  | inS, inD, esc, c :: rest =>
    if esc then hasUnquotedOp inS inD false rest
    else if c = '\\' ∧ inS = false then hasUnquotedOp inS inD true rest
    else if c = sqC ∧ inD = false then hasUnquotedOp (!inS) inD false rest
    else if c = '"' ∧ inS = false then hasUnquotedOp inS (!inD) false rest
    else if inS = false ∧ inD = false ∧ isRejectedAt c rest.head? = true then true
    else hasUnquotedOp inS inD false rest

/-- The construct names `checkUnsupportedSyntax` can actually report. -/
def rejectedNames : List String :=
  ["pipes (|)", "redirections (>, <, >>)", "logical AND (&&)",
   "command chaining (;)", "command substitution (``)",
   "command substitution ($())"]

/-!
## History list (`src/shell.ts`, `processInputChar`, lines 187–201)
-/

/-- The history update performed when a line is submitted: the (already
trimmed) line is pushed iff it is non-empty and differs from the last
entry (`line && (history.length === 0 || history[history.length-1] !== line)`). -/
def historyAppend (history : List Str) (line : Str) : List Str :=
  if line ≠ [] ∧ (history = [] ∨ history.getLast? ≠ some line) then history ++ [line]
  else history

/-- The Enter branch of `processInputChar` applied to the raw input buffer:
the buffer is trimmed and then recorded in the history. -/
def submitLineHistory (history : List Str) (rawBuffer : Str) : List Str :=
  historyAppend history (jsTrim rawBuffer)

/-!
## Path normalization and resolution (`src/shell.ts`, lines 402–431)
-/

/-- The segment filter in `normalizePath`: keep a fragment iff it is
non-empty and not `"."`. -/
def keepSeg (p : Str) : Bool := decide (p ≠ [] ∧ p ≠ ['.'])

/-- The accumulation loop of `normalizePath`: `".."` pops the last
accumulated segment (`Array.prototype.pop` on an empty array is a no-op),
anything else is pushed. -/
def normAccum (acc : List Str) : List Str → List Str
  | [] => acc
  | p :: rest =>
    if p = "..".data then normAccum acc.dropLast rest
    else normAccum (acc ++ [p]) rest

/-- The final segment list computed by `normalizePath`. -/
def normSegs (path : Str) : List Str :=
  normAccum [] ((jsSplitChar '/' path).filter keepSeg)

/-- `normalizePath` from `src/shell.ts` (lines 418–431): split on `/`,
drop empty and `"."` segments, pop one segment per `".."`, and re-join
under a leading `/`. -/
def normalizePath (path : Str) : Str :=
  '/' :: List.intercalate "/".data (normSegs path)

/-- `resolvePath` from `src/shell.ts` (lines 402–415): absolute paths are
normalized as-is; `~` and `~/...` expand against `HOME` (default `/`);
anything else is resolved against the current working directory. -/
def resolvePath (homeVar : Option Str) (cwd path : Str) : Str :=
  if path.head? = some '/' then normalizePath path
  else if path = ['~'] ∨ path.take 2 = ['~', '/'] then
    let home := jsOr homeVar ['/']
    normalizePath (if path = ['~'] then home else home ++ path.drop 1)
  else normalizePath (cwd ++ '/' :: path)

/-!
## Environment map and the cwd setter (`src/shell.ts`, lines 82–86)
-/

/-- The session environment: a JavaScript `Map<string, string>` modelled as
an insertion-ordered association list. -/
abbrev EnvL := List (Str × Str)

/-- `Map.prototype.get`. -/
def envGet (env : EnvL) (k : Str) : Option Str :=
  match env with
  | [] => none
  | (k0, v0) :: rest => if k0 = k then some v0 else envGet rest k

/-- `Map.prototype.set`: update in place if the key exists, else append. -/
def envSet (env : EnvL) (k v : Str) : EnvL :=
  match env with
  | [] => [(k, v)]
  | (k0, v0) :: rest => if k0 = k then (k, v) :: rest else (k0, v0) :: envSet rest k v

/-- The shell state touched by the cwd setter. -/
structure ShellSt where
  cwd : Str
  env : EnvL
deriving DecidableEq, Repr

/-- The `set cwd` accessor of `Shell` (`src/shell.ts` lines 82–86), which is
also the body of the `setCwd` callback handed to commands (line 386):
assign the private `_cwd` field and mirror the value into `PWD`. -/
def setCwd (sh : ShellSt) (path : Str) : ShellSt :=
  { cwd := path, env := envSet sh.env "PWD".data path }

/-!
## The `cd` command (`src/commands/cd.ts`)
-/

/-- The virtual-filesystem operations consumed by the embedded functions.
`statIsDir p` is `none` when `statSync(p)` throws and `some b` when it
returns a stat with `isDirectory() = b`; `readdirSync p` is `none` when the
call throws; `existsSync` returns a plain boolean. -/
structure FSM where
  statIsDir : Str → Option Bool
  readdirSync : Str → Option (List Str)
  existsSync : Str → Bool

/-- The tail of `cd` (`src/commands/cd.ts` lines 25–40) once the target
path is computed: stat it, reject missing paths and non-directories with
exit 1, else save `OLDPWD` (the pre-change cwd) and change directory
through the `setCwd` callback.  Result: (new shell state, exit code,
stderr writes). -/
def cdFinish (fs : FSM) (sh : ShellSt) (target newPath : Str) :
    ShellSt × Nat × List Str :=
  match fs.statIsDir newPath with
  | none => (sh, 1, ["cd: ".data ++ target ++ ": No such file or directory\r\n".data])
  | some false => (sh, 1, ["cd: ".data ++ target ++ ": Not a directory\r\n".data])
  | some true =>
    (setCwd { sh with env := envSet sh.env "OLDPWD".data sh.cwd } newPath, 0, [])

/-- `cd` from `src/commands/cd.ts` (lines 3–41).  The target defaults to
`HOME` then `/` through JavaScript falsiness; `-` goes to `OLDPWD` (failing
when unset or empty); `cd.ts` carries its own copy of `normalizePath`,
identical to the shell's, which is shared here. -/
def cd (fs : FSM) (sh : ShellSt) (args : List Str) : ShellSt × Nat × List Str :=
  let target := jsOr args.head? (jsOr (envGet sh.env "HOME".data) ['/'])
  if target.head? = some '/' then cdFinish fs sh target (normalizePath target)
  else if target = ['~'] ∨ target.take 2 = ['~', '/'] then
    let home := jsOr (envGet sh.env "HOME".data) ['/']
    cdFinish fs sh target
      (if target = ['~'] then home else normalizePath (home ++ target.drop 1))
  else if target = ['-'] then
    match envGet sh.env "OLDPWD".data with
    | none => (sh, 1, ["cd: OLDPWD not set\r\n".data])
    | some oldPwd =>
      if oldPwd = [] then (sh, 1, ["cd: OLDPWD not set\r\n".data])
      else cdFinish fs sh target oldPwd
  else cdFinish fs sh target (normalizePath (sh.cwd ++ '/' :: target))

/-!
## Command entries and the PATH resolver
(`src/types.ts`, `src/backends/binfs.ts`, `src/shell.ts` lines 433–491)
-/

/-- A JavaScript runtime value, as far as command resolution observes one:
a function exposes its declared parameter count
(`Function.prototype.length`) and the value produced by calling it with no
arguments and awaiting the result; non-function values arise as results of
such calls. -/
inductive JSVal where
  | func (arity : Nat) (callZero : JSVal)
  | num (n : Int)
  | undef
deriving DecidableEq, Repr

/-- `isLazyCommand` from `src/types.ts` (lines 28–33): an entry counts as a
lazy loader exactly when `entry.length === 0` — a pure arity check. -/
def isLazyCommand : JSVal → Bool
  | .func a _ => a == 0
  | _ => false

/-- Call a function value with no arguments and await the result. -/
def jsCall0 : JSVal → JSVal
  | .func _ r => r
  | v => v

/-- A mounted filesystem as the resolver sees it: whether it is a BinFS
instance (`isBinFS`, identity-table membership in `binfs.ts`) and its
name → entry registry (`getCommand`). -/
structure Mount where
  isBin : Bool
  registry : Str → Option JSVal

/-- The collaborators of `resolveCommand`: the `PATH` value, the
filesystem's `existsSync` (a throw is caught and treated as absence), and
the mount table. -/
structure ResolveEnv where
  envPATH : Option Str
  existsSync : Str → Bool
  mounts : Str → Option Mount

/-- `getCommandFromPath` from `src/shell.ts` (lines 473–491): look up the
mount at the directory, require it to be a BinFS instance, and fetch the
registered entry. -/
def getCommandFromPath (re : ResolveEnv) (mountPath nm : Str) : Option JSVal :=
  match re.mounts mountPath with
  | none => none
  | some m => if m.isBin then m.registry nm else none

/-- The `loadedCommands` cache: full path → materialized callable. -/
abbrev Cache := List (Str × JSVal)

/-- `Map.prototype.get` on the loaded-command cache. -/
def cacheGet (c : Cache) (k : Str) : Option JSVal :=
  match c with
  | [] => none
  | (k0, v0) :: rest => if k0 = k then some v0 else cacheGet rest k

/-- `Map.prototype.set` on the loaded-command cache. -/
def cacheSet (c : Cache) (k : Str) (v : JSVal) : Cache :=
  match c with
  | [] => [(k, v)]
  | (k0, v0) :: rest => if k0 = k then (k, v) :: rest else (k0, v0) :: cacheSet rest k v

/-- Outcome of one `resolveCommand` call: the resolved callable (if any),
the cache afterwards, and the full paths whose lazy loaders were invoked
during the call. -/
structure ResolveOut where
  result : Option JSVal
  cache : Cache
  invoked : List Str
deriving DecidableEq, Repr

/-- The PATH-directory loop of `resolveCommand` (`src/shell.ts` lines
436–468): skip non-existent candidates, return a cache hit, skip
directories that are not command registries, invoke and cache a lazy
entry, return a direct entry uncached.  The source's `if (cached)` is a
JavaScript truthiness test; it coincides with the presence test modelled
here for every value of the cache's declared type `CommandFn` (functions
are truthy). -/
def resolveGo (re : ResolveEnv) (nm : Str) : List Str → Cache → ResolveOut
  | [], c => ⟨none, c, []⟩
  | dir :: rest, c =>
    let fullPath := dir ++ '/' :: nm
    if re.existsSync fullPath = false then resolveGo re nm rest c
    else
      match cacheGet c fullPath with
      | some cached => ⟨some cached, c, []⟩
      | none =>
        match getCommandFromPath re dir nm with
        | none => resolveGo re nm rest c
        | some entry =>
          if isLazyCommand entry = true then
            ⟨some (jsCall0 entry), cacheSet c fullPath (jsCall0 entry), [fullPath]⟩
          else ⟨some entry, c, []⟩

/-- The PATH split of `resolveCommand`: `(this.env.get('PATH') || '').split(':')`
(an unset or empty `PATH` yields the single directory `""`). -/
def pathDirs (re : ResolveEnv) : List Str :=
  jsSplitChar ':' (jsOr re.envPATH [])

/-- `resolveCommand` from `src/shell.ts` (lines 433–471). -/
def resolveCommand (re : ResolveEnv) (c : Cache) (nm : Str) : ResolveOut :=
  resolveGo re nm (pathDirs re) c

/-!
## Command execution (`src/shell.ts`, `executeCommand`, lines 343–399)
-/

/-- Outcome of invoking a resolved command with its context: either it
returns an exit code (possibly `undefined`), or it throws, carrying the
text of the thrown value. -/
inductive InvokeRes where
  | ret (code : Option Int)
  | threw (err : Str)
deriving DecidableEq, Repr

/-- The shell state threaded through `executeCommand`: cwd, environment,
and the loaded-command cache. -/
structure ExecSt where
  cwd : Str
  env : EnvL
  cache : Cache
deriving DecidableEq, Repr

/-- The external collaborators of `executeCommand`: the filesystem's
`existsSync` and the mount table. -/
structure ExecEnv where
  existsSync : Str → Bool
  mounts : Str → Option Mount

/-- The resolver's view, built from the collaborators and the live
environment. -/
def reOf (ee : ExecEnv) (env : EnvL) : ResolveEnv :=
  ⟨envGet env "PATH".data, ee.existsSync, ee.mounts⟩

/-- `String(n)` for an integer exit code. -/
def intToStr (n : Int) : Str := (toString n).data

/-- `executeCommand` from `src/shell.ts` (lines 343–399), with command
bodies abstracted by `invoke` (the context hands a command the live
environment, the cwd and the `setCwd` callback, so a body may transform
the whole state).  Returns the state afterwards and the stderr writes.
A blank line and a parse returning `null` just reprint the prompt; parse
failures are reported; an unresolved name is reported as
`name: command not found`; otherwise the command runs and `?` receives
`String(exitCode ?? 0)`, or `1` when the body throws. -/
def executeCommand (ee : ExecEnv) (invoke : JSVal → ExecSt → ExecSt × InvokeRes)
    (st : ExecSt) (line : Str) : ExecSt × List Str :=
  if line = [] then (st, [])
  else
    match parseCommand line with
    | .error (.unsupported f) =>
      (st, [("Unsupported syntax: " ++ f).data ++ "\r\n".data])
    | .error (.parseError m) => (st, [("Parse error: " ++ m).data ++ "\r\n".data])
    | .ok none => (st, [])
    | .ok (some p) =>
      let ro := resolveCommand (reOf ee st.env) st.cache p.name
      let st1 : ExecSt := { st with cache := ro.cache }
      match ro.result with
      | none => (st1, [p.name ++ ": command not found\r\n".data])
      | some fn =>
        match invoke fn st1 with
        | (st2, .ret code) =>
          ({ st2 with env := envSet st2.env ['?'] (intToStr (code.getD 0)) }, [])
        | (st2, .threw err) =>
          ({ st2 with env := envSet st2.env ['?'] ['1'] },
            ["Error: ".data ++ err ++ "\r\n".data])

/-!
## Tab completion (`src/shell.ts`, lines 238–341)
-/

mutual

/-- Fragment accumulation for `split(/\s+/)`. -/
def jsSplitWsGo (current : Str) : Str → List Str
  | [] => [current]
  | c :: rest =>
    if isJsWs c = true then current :: jsSplitWsSkip rest
    else jsSplitWsGo (current ++ [c]) rest

/-- Separator-run skipping for `split(/\s+/)`. -/
def jsSplitWsSkip : Str → List Str
  | [] => [[]]
  | c :: rest =>
    if isJsWs c = true then jsSplitWsSkip rest
    else jsSplitWsGo [c] rest

end

/-- `String.prototype.split(/\s+/)`: fragments between maximal whitespace
runs, with an empty leading fragment when the string starts with
whitespace and an empty trailing fragment when it ends with one. -/
def jsSplitWs (s : Str) : List Str := jsSplitWsGo [] s

/-- `String.prototype.lastIndexOf` for a single character (`none` when the
character does not occur, mirroring the `includes('/')` guard). -/
def lastIdxOf (c : Char) : Str → Option Nat
  | [] => none
  | x :: rest =>
    match lastIdxOf c rest with
    | some i => some (i + 1)
    | none => if x = c then some 0 else none

/-- Strict lexicographic comparison by code point, the order used by the
default (string-comparing) JavaScript `Array.prototype.sort`. -/
def strLt : Str → Str → Bool
  | [], [] => false
  | [], _ :: _ => true
  | _ :: _, [] => false
  | x :: xs, y :: ys =>
    if x.val < y.val then true
    else if y.val < x.val then false
    else strLt xs ys

/-- Stable insertion: a new element goes after existing equal ones. -/
def insertSorted (x : Str) : List Str → List Str
  | [] => [x]
  | y :: ys => if strLt x y = true then x :: y :: ys else y :: insertSorted x ys

/-- The default `Array.prototype.sort()` (stable, string comparison). -/
def jsSort (l : List Str) : List Str := l.foldl (fun acc x => insertSorted x acc) []

/-- The entry-collection loop of `getPathCompletions` (lines 318–338):
keep entries starting with the name-part; directories get a trailing `/`;
a failing stat is treated like a file. -/
def collectEntries (fs : FSM) (searchDir fPfx : Str) : List Str → List Str
  | [] => []
  | e :: rest =>
    if fPfx.isPrefixOf e = true then
      let fullPath := if searchDir = ['/'] then '/' :: e else searchDir ++ '/' :: e
      match fs.statIsDir fullPath with
      | some true => (e ++ ['/']) :: collectEntries fs searchDir fPfx rest
      | some false => e :: collectEntries fs searchDir fPfx rest
      | none => e :: collectEntries fs searchDir fPfx rest
    else collectEntries fs searchDir fPfx rest

/-- `getPathCompletions` from `src/shell.ts` (lines 297–341): when the
typed token contains a `/`, split it at the last slash into a directory
part (`""` falls back to `/`; a relative directory part is resolved
against the cwd) and a name part; otherwise search the cwd with the whole
token as name part.  A failing `readdir` yields no completions. -/
def getPathCompletions (fs : FSM) (homeVar : Option Str) (cwd pfx : Str) : List Str :=
  let sdfp :=
    match lastIdxOf '/' pfx with
    | none => (cwd, pfx)
    | some i =>
      let sd0 := pfx.take i
      let sd1 := if sd0 = [] then ['/'] else sd0
      let sd2 := if sd1.head? = some '/' then sd1 else resolvePath homeVar cwd sd1
      (sd2, pfx.drop (i + 1))
  match fs.readdirSync sdfp.1 with
  | none => jsSort []
  | some entries => jsSort (collectEntries fs sdfp.1 sdfp.2 entries)

/-- The deduplicating inner loop of `getCommandCompletions`. -/
def ccEntries (pfx : Str) : List Str → List Str → List Str
  | [], acc => acc
  | e :: es, acc =>
    ccEntries pfx es (if pfx.isPrefixOf e = true ∧ e ∉ acc then acc ++ [e] else acc)

/-- The PATH-directory loop of `getCommandCompletions` (an unreadable
directory is skipped). -/
def ccDirs (fs : FSM) (pfx : Str) : List Str → List Str → List Str
  | [], acc => acc
  | dir :: rest, acc =>
    match fs.readdirSync dir with
    | none => ccDirs fs pfx rest acc
    | some entries => ccDirs fs pfx rest (ccEntries pfx entries acc)

/-- `getCommandCompletions` from `src/shell.ts` (lines 277–295). -/
def getCommandCompletions (fs : FSM) (pathVar : Option Str) (pfx : Str) : List Str :=
  jsSort (ccDirs fs pfx (jsSplitChar ':' (jsOr pathVar [])) [])

/-- `handleTabCompletion` from `src/shell.ts` (lines 238–275).  Returns the
new input buffer and the stdout writes; the prompt string (used only by the
multi-match redraw) is a parameter. -/
def handleTabCompletion (fs : FSM) (homeVar pathVar : Option Str)
    (cwd prompt buffer : Str) : Str × List Str :=
  let parts := jsSplitWs buffer
  if parts.length ≤ 1 then
    let pfx := jsOr parts.head? []
    let completions := getCommandCompletions fs pathVar pfx
    if completions.length = 1 then
      let completion := completions.headI.drop pfx.length
      (buffer ++ completion ++ [' '], [completion ++ [' ']])
    else if 1 < completions.length then
      (buffer, ["\r\n".data, List.intercalate "  ".data completions ++ "\r\n".data,
        prompt, buffer])
    else (buffer, [])
  else
    let pPfx := parts.getLast?.getD []
    let completions := getPathCompletions fs homeVar cwd pPfx
    if completions.length = 1 then
      let completion := completions.headI.drop pPfx.length
      (buffer ++ completion, [completion])
    else if 1 < completions.length then
      (buffer, ["\r\n".data, List.intercalate "  ".data completions ++ "\r\n".data,
        prompt, buffer])
    else (buffer, [])

/-!
## Concrete fixtures used by witnesses and counterexamples
-/

/-- Concrete filesystem for the C8 witness: `/home/guest` and
`/home/guest/docs` are directories, nothing else exists. -/
def fsW : FSM :=
  ⟨fun p => if p = "/home/guest".data then some true
    else if p = "/home/guest/docs".data then some true else none,
   fun _ => none, fun _ => false⟩

/-- Concrete shell state for the C8 witness. -/
def shW : ShellSt := ⟨"/home/guest".data, [("HOME".data, "/home/guest".data)]⟩

/-- The state reached from `shW` by a successful `cd docs`. -/
def shW1 : ShellSt :=
  ⟨"/home/guest/docs".data,
   [("HOME".data, "/home/guest".data), ("OLDPWD".data, "/home/guest".data),
    ("PWD".data, "/home/guest/docs".data)]⟩

/-- Resolver collaborators for the C9 witness: `PATH=/bin`, `/bin/pwd`
exists, and `/bin` is a BinFS mount registering `pwd` as a zero-parameter
function returning the number 0. -/
def reW : ResolveEnv :=
  ⟨some "/bin".data, fun p => decide (p = "/bin/pwd".data),
   fun d => if d = "/bin".data then
       some ⟨true, fun n => if n = "pwd".data then some (.func 0 (.num 0)) else none⟩
     else none⟩

/-- Execution collaborators for the C1 counterexample: nothing exists on
the filesystem and there are no mounts. -/
def eeC1 : ExecEnv := ⟨fun _ => false, fun _ => none⟩

/-- Shell state for the C1 counterexample: `PATH=/bin` and `?` holding `0`
from an earlier command. -/
def stC1 : ExecSt := ⟨"/home/guest".data, [("PATH".data, "/bin".data), (['?'], ['0'])], []⟩

/-- Concrete filesystem for C3, following the repository's own test
fixture: the root directory lists `site`, `shared`, `bin`, `home`, and
`/site` (among others) is a directory. -/
def fsC3 : FSM :=
  ⟨fun p => if p = "/site".data then some true
    else if p = "/shared".data then some true
    else if p = "/bin".data then some true
    else if p = "/home".data then some true else none,
   fun p => if p = ['/'] then some ["bin".data, "home".data, "shared".data, "site".data]
     else none,
   fun _ => false⟩

/-!
## Theorems
-/

/-- If the claim-side scan finds an unquoted rejected construct, the
source's pre-scan reports an `UnsupportedSyntaxError` naming one of the
rejected constructs. -/
theorem checkUnsupported_of_hasUnquotedOp :
    ∀ (l : Str) (inS inD esc : Bool), hasUnquotedOp inS inD esc l = true →
      ∃ f, checkUnsupported inS inD esc l = some (.unsupported f) ∧ f ∈ rejectedNames := by
  intro l
  induction l with
  | nil => intro inS inD esc h; simp [hasUnquotedOp] at h
  | cons c rest ih =>
    intro inS inD esc h
    rw [hasUnquotedOp] at h
    rw [checkUnsupported]
    by_cases hesc : esc = true
    · rw [if_pos hesc] at h ⊢; exact ih _ _ _ h
    · rw [if_neg hesc] at h ⊢
      by_cases hbs : c = '\\' ∧ inS = false
      · rw [if_pos hbs] at h ⊢; exact ih _ _ _ h
      · rw [if_neg hbs] at h ⊢
        by_cases hsq : c = sqC ∧ inD = false
        · rw [if_pos hsq] at h ⊢; exact ih _ _ _ h
        · rw [if_neg hsq] at h ⊢
          by_cases hdq : c = '"' ∧ inS = false
          · rw [if_pos hdq] at h ⊢; exact ih _ _ _ h
          · rw [if_neg hdq] at h ⊢
            by_cases hq : inS = false ∧ inD = false
            · rw [if_pos hq]
              by_cases hop : isRejectedAt c rest.head? = true
              · simp only [isRejectedAt, decide_eq_true_eq] at hop
                rcases hop with h1 | h1 | h1 | ⟨h1, h2⟩ | h1 | h1 | ⟨h1, h2⟩ <;>
                  subst h1 <;> simp_all [rejectedNames, sqC, bqC]
              · rw [if_neg (fun hcon => hop hcon.2.2)] at h
                have hc1 : ¬ c = '|' := fun e => hop (by simp [isRejectedAt, e])
                have hc2 : ¬ (c = '>' ∨ c = '<') := fun e => hop (by
                  rcases e with e | e <;> simp [isRejectedAt, e])
                have hc3 : ¬ (c = '&' ∧ rest.head? = some '&') := fun e =>
                  hop (by simp [isRejectedAt, e.1, e.2])
                have hc4 : ¬ c = ';' := fun e => hop (by simp [isRejectedAt, e])
                have hc5 : ¬ c = bqC := fun e => hop (by simp [isRejectedAt, e])
                have hc6 : ¬ (c = '$' ∧ rest.head? = some '(') := fun e =>
                  hop (by simp [isRejectedAt, e.1, e.2])
                rw [if_neg hc1, if_neg hc2, if_neg hc3, if_neg hc4, if_neg hc5, if_neg hc6]
                exact ih _ _ _ h
            · rw [if_neg (fun hcon => hq ⟨hcon.1, hcon.2.1⟩)] at h
              rw [if_neg hq]
              exact ih _ _ _ h

theorem envGet_envSet (env : EnvL) (k v k2 : Str) :
    envGet (envSet env k v) k2 = if k2 = k then some v else envGet env k2 := by
  induction env with
  | nil =>
    by_cases h : k2 = k
    · subst h; simp [envGet, envSet]
    · have h' : ¬ k = k2 := fun hc => h hc.symm
      simp [envGet, envSet, h, h']
  | cons kv rest ih =>
    obtain ⟨k0, v0⟩ := kv
    by_cases h0 : k0 = k
    · subst h0
      by_cases h2 : k2 = k0
      · subst h2; simp [envGet, envSet]
      · have h2' : ¬ k0 = k2 := fun hc => h2 hc.symm
        simp [envGet, envSet, h2, h2']
    · by_cases h2 : k0 = k2
      · subst h2
        simp [envGet, envSet, h0, fun hc : k0 = k => h0 hc]
      · simp [envGet, envSet, h0, h2, ih]

theorem jsSplitChar_ne_nil (sep : Char) (l : Str) : jsSplitChar sep l ≠ [] := by
  cases l with
  | nil => simp [jsSplitChar]
  | cons c rest =>
    rw [jsSplitChar]
    by_cases h : c = sep
    · simp [h]
    · rw [if_neg h]
      cases jsSplitChar sep rest <;> simp

theorem jsSplitChar_append (sep : Char) (a b : Str) :
    jsSplitChar sep (a ++ sep :: b) = jsSplitChar sep a ++ jsSplitChar sep b := by
  induction a with
  | nil => simp [jsSplitChar]
  | cons c a ih =>
    by_cases h : c = sep
    · subst h
      simp only [List.cons_append, jsSplitChar, if_pos rfl, List.append_eq, ih,
        eq_self_iff_true, if_true]
    · obtain ⟨t, ts, hts⟩ : ∃ t ts, jsSplitChar sep a = t :: ts := by
        cases hsp : jsSplitChar sep a with
        | nil => exact absurd hsp (jsSplitChar_ne_nil sep a)
        | cons t ts => exact ⟨t, ts, rfl⟩
      simp only [List.cons_append, jsSplitChar, if_neg h, List.append_eq, ih, hts]

theorem normAccum_append (acc : List Str) (l1 l2 : List Str) :
    normAccum acc (l1 ++ l2) = normAccum (normAccum acc l1) l2 := by
  induction l1 generalizing acc with
  | nil => rfl
  | cons p rest ih =>
    by_cases hp : p = "..".data
    · rw [List.cons_append, normAccum, if_pos hp, normAccum, if_pos hp]; exact ih _
    · rw [List.cons_append, normAccum, if_neg hp, normAccum, if_neg hp]; exact ih _

theorem normSegs_dotdot (p : Str) :
    normSegs (p ++ "/..".data) = (normSegs p).dropLast := by
  have h1 : (p ++ "/..".data : Str) = p ++ '/' :: "..".data := rfl
  simp only [normSegs, h1, jsSplitChar_append, List.filter_append, normAccum_append]
  have h2 : List.filter keepSeg (jsSplitChar '/' "..".data) = ["..".data] := by decide
  rw [h2, normAccum, if_pos rfl, normAccum]

theorem normSegs_dot (p : Str) : normSegs (p ++ "/.".data) = normSegs p := by
  have h1 : (p ++ "/.".data : Str) = p ++ '/' :: ".".data := rfl
  simp only [normSegs, h1, jsSplitChar_append, List.filter_append, normAccum_append]
  have h2 : List.filter keepSeg (jsSplitChar '/' ".".data) = [] := by decide
  rw [h2, normAccum]

/-- C4: Parsing the exact input string `echo "a b" 'c'` yields command name
`echo` and argument list `["a b", "c"]`: double quotes group one token,
single quotes group one token with zero escape interpretation, and
unquoted whitespace separates tokens. -/
theorem c4_parse_mixed_quotes :
    parseCommand ("echo \"a b\" ".data ++ [sqC, 'c', sqC]) =
      .ok (some ⟨"echo".data, ["a b".data, "c".data]⟩) := by
  decide

/-- C5: Every input containing an unquoted (and unescaped) `|`, `;`, `&&`,
`<`, `>`, backtick, or `$(` makes `parseCommand` fail with an
`UnsupportedSyntaxError` naming one of the rejected constructs, while the
same characters inside quotes do not fail: `echo "a|b"` parses to args
`["a|b"]`. -/
theorem c5_unquoted_operators_rejected :
    (∀ s : Str, hasUnquotedOp false false false (jsTrim s) = true →
      ∃ f, parseCommand s = .error (.unsupported f) ∧ f ∈ rejectedNames) ∧
    parseCommand "echo \"a|b\"".data = .ok (some ⟨"echo".data, ["a|b".data]⟩) := by
  constructor
  · intro s h
    have hne : jsTrim s ≠ [] := by
      intro he; rw [he] at h; simp [hasUnquotedOp] at h
    obtain ⟨f, hf, hmem⟩ := checkUnsupported_of_hasUnquotedOp (jsTrim s) false false false h
    refine ⟨f, ?_, hmem⟩
    simp only [parseCommand, if_neg hne, hf]
  · decide

/-- Witness for C5 at the concrete input `ls | grep foo`. -/
theorem c5_witness :
    ∃ f, parseCommand "ls | grep foo".data = .error (.unsupported f) ∧ f ∈ rejectedNames :=
  c5_unquoted_operators_rejected.1 "ls | grep foo".data (by decide)

/-- C7: History invariant on line submission: the trimmed line is appended
iff it is non-empty and differs from the immediately preceding entry; the
history is append-only (each submission either leaves it unchanged or
appends exactly the trimmed line at the end); submitting an identical line
twice in a row appends once, and a third submission of it after an
unrelated line appends it again. -/
theorem c7_history_invariant :
    (∀ (h : List Str) (buf : Str),
      submitLineHistory h buf = h ∨ submitLineHistory h buf = h ++ [jsTrim buf]) ∧
    (∀ (h : List Str) (buf : Str),
      submitLineHistory h buf = h ++ [jsTrim buf] ↔
        (jsTrim buf ≠ [] ∧ h.getLast? ≠ some (jsTrim buf))) ∧
    (∀ (h : List Str) (l m : Str), l ≠ [] → m ≠ [] → m ≠ l → h.getLast? ≠ some l →
      historyAppend (historyAppend h l) l = h ++ [l] ∧
      historyAppend (historyAppend (historyAppend (historyAppend h l) l) m) l =
        h ++ [l, m, l]) := by
  have hlast : ∀ (h : List Str) (x : Str), (h ++ [x]).getLast? = some x := by
    intro h x
    rw [List.getLast?_append]
    rfl
  have hcond : ∀ (h : List Str) (l : Str),
      (h = [] ∨ h.getLast? ≠ some l) ↔ h.getLast? ≠ some l := by
    intro h l
    constructor
    · rintro (rfl | hne)
      · simp
      · exact hne
    · exact fun hne => Or.inr hne
  have happ : ∀ (h : List Str) (l : Str), l ≠ [] → h.getLast? ≠ some l →
      historyAppend h l = h ++ [l] := by
    intro h l hl hne
    rw [historyAppend, if_pos ⟨hl, (hcond h l).mpr hne⟩]
  have hskip : ∀ (h : List Str) (l : Str), h.getLast? = some l →
      historyAppend h l = h := by
    intro h l heq
    rw [historyAppend, if_neg]
    rintro ⟨-, hor⟩
    rcases (hcond h l).mp hor with hne
    exact hne heq
  refine ⟨?_, ?_, ?_⟩
  · intro h buf
    rw [submitLineHistory, historyAppend]
    split
    · exact Or.inr rfl
    · exact Or.inl rfl
  · intro h buf
    constructor
    · intro heq
      rw [submitLineHistory, historyAppend] at heq
      split at heq
      · next hc => exact ⟨hc.1, (hcond h _).mp hc.2⟩
      · exact absurd (congrArg List.length heq) (by simp)
    · rintro ⟨h1, h2⟩
      exact happ h _ h1 h2
  · intro h l m hl hm hml hlast0
    have e1 : historyAppend h l = h ++ [l] := happ h l hl hlast0
    have e2 : historyAppend (h ++ [l]) l = h ++ [l] := hskip _ _ (hlast h l)
    have e3 : historyAppend (h ++ [l]) m = h ++ [l, m] := by
      have := happ (h ++ [l]) m hm
        (by rw [hlast]; intro hc; injection hc with h1; exact hml h1.symm)
      simpa using this
    have e4 : historyAppend (h ++ [l, m]) l = h ++ [l, m, l] := by
      have hlm : (h ++ [l, m]).getLast? = some m := by
        rw [show h ++ [l, m] = (h ++ [l]) ++ [m] by simp]
        exact hlast _ _
      have := happ (h ++ [l, m]) l hl
        (by rw [hlm]; intro hc; injection hc with h1; exact hml h1)
      simpa using this
    refine ⟨by rw [e1, e2], by rw [e1, e2, e3, e4]⟩

/-- Witness for C7 at concrete inputs. -/
theorem c7_witness :
    historyAppend (historyAppend [] "ls".data) "ls".data = [] ++ ["ls".data] ∧
    historyAppend (historyAppend (historyAppend (historyAppend [] "ls".data) "ls".data)
        "pwd".data) "ls".data = [] ++ ["ls".data, "pwd".data, "ls".data] :=
  c7_history_invariant.2.2 [] "ls".data "pwd".data (by decide) (by decide) (by decide)
    (by decide)

/-- C6: `resolvePath` passes absolute paths through (normalized only),
expands `~` and `~/...` against `HOME`, resolves relative paths against
the cwd; normalization strips `.` segments and pops one segment per `..`,
popping past root being a no-op; concretely, from `/home/guest`,
`resolvePath ".."` is `/home`, `resolvePath "../.."` is `/`, and further
`..` stays at `/`. -/
theorem c6_resolvePath_cases :
    (∀ (h : Option Str) (cwd p : Str), p.head? = some '/' →
      resolvePath h cwd p = normalizePath p) ∧
    (∀ (h : Option Str) (cwd : Str),
      resolvePath h cwd ['~'] = normalizePath (jsOr h ['/'])) ∧
    (∀ (h : Option Str) (cwd p : Str),
      resolvePath h cwd ('~' :: '/' :: p) = normalizePath (jsOr h ['/'] ++ '/' :: p)) ∧
    (∀ (h : Option Str) (cwd p : Str), p.head? ≠ some '/' → p ≠ ['~'] →
      p.take 2 ≠ ['~', '/'] → resolvePath h cwd p = normalizePath (cwd ++ '/' :: p)) ∧
    (∀ p : Str, normSegs (p ++ "/..".data) = (normSegs p).dropLast ∧
      normSegs (p ++ "/.".data) = normSegs p) ∧
    (resolvePath (some "/home/guest".data) "/home/guest".data "..".data = "/home".data ∧
     resolvePath (some "/home/guest".data) "/home/guest".data "../..".data = "/".data ∧
     resolvePath (some "/home/guest".data) "/home/guest".data "../../..".data = "/".data) := by
  refine ⟨?_, ?_, ?_, ?_, ?_, ?_⟩
  · intro h cwd p hp
    rw [resolvePath, if_pos hp]
  · intro h cwd
    simp [resolvePath]
  · intro h cwd p
    simp [resolvePath]
  · intro h cwd p h1 h2 h3
    rw [resolvePath, if_neg h1, if_neg (by rintro (hc | hc); exact h2 hc; exact h3 hc)]
  · exact fun p => ⟨normSegs_dotdot p, normSegs_dot p⟩
  · exact ⟨by decide, by decide, by decide⟩

/-- Witness for C6 at concrete inputs. -/
theorem c6_witness :
    resolvePath (some "/home/guest".data) "/home/guest".data "/etc/../tmp".data =
      normalizePath "/etc/../tmp".data :=
  c6_resolvePath_cases.1 (some "/home/guest".data) "/home/guest".data "/etc/../tmp".data
    (by decide)

/-- C10: every assignment through the `Shell` cwd setter (the same function
backs the `setCwd` callback handed to commands) writes the new path to both
the `cwd` field and the `PWD` environment key, and changes no other
environment key. -/
theorem c10_setCwd_frame :
    ∀ (sh : ShellSt) (p : Str),
      (setCwd sh p).cwd = p ∧
      envGet (setCwd sh p).env "PWD".data = some p ∧
      ∀ k, k ≠ "PWD".data → envGet (setCwd sh p).env k = envGet sh.env k := by
  intro sh p
  refine ⟨rfl, ?_, ?_⟩
  · rw [setCwd]
    show envGet (envSet sh.env "PWD".data p) "PWD".data = some p
    rw [envGet_envSet, if_pos rfl]
  · intro k hk
    rw [setCwd]
    show envGet (envSet sh.env "PWD".data p) k = envGet sh.env k
    rw [envGet_envSet, if_neg hk]

/-- Witness for C10 at a concrete state. -/
theorem c10_witness :
    envGet (setCwd ⟨"/home/guest".data, [("PATH".data, "/bin".data)]⟩ "/tmp".data).env
      "PATH".data = envGet [("PATH".data, "/bin".data)] "PATH".data :=
  (c10_setCwd_frame ⟨"/home/guest".data, [("PATH".data, "/bin".data)]⟩ "/tmp".data).2.2
    "PATH".data (by decide)

theorem jsOr_ne_nil (o : Option Str) (d : Str) (hd : d ≠ []) : jsOr o d ≠ [] := by
  cases o with
  | none => exact hd
  | some s =>
    rw [jsOr]
    split
    · exact hd
    · assumption

theorem normalizePath_ne_nil (p : Str) : normalizePath p ≠ [] := by
  simp [normalizePath]

theorem ite_ne_nil {b : Prop} [Decidable b] {x y : Str} (hx : x ≠ []) (hy : y ≠ []) :
    (if b then x else y) ≠ [] := by
  split
  · exact hx
  · exact hy

theorem cdFinish_success (fs : FSM) (sh : ShellSt) (t np : Str) (sh' : ShellSt)
    (errs : List Str) (hc : cdFinish fs sh t np = (sh', 0, errs)) :
    fs.statIsDir np = some true ∧
    sh' = setCwd { sh with env := envSet sh.env "OLDPWD".data sh.cwd } np ∧
    errs = [] := by
  rw [cdFinish] at hc
  cases hstat : fs.statIsDir np with
  | none => rw [hstat] at hc; simp at hc
  | some b =>
    cases b with
    | false => rw [hstat] at hc; simp at hc
    | true =>
      rw [hstat] at hc
      simp only [Prod.mk.injEq] at hc
      exact ⟨rfl, hc.1.symm, hc.2.2.symm⟩

theorem cdFinish_facts (fs : FSM) (sh : ShellSt) (t np : Str) (sh' : ShellSt)
    (errs : List Str) (hnp : np ≠ []) (hc : cdFinish fs sh t np = (sh', 0, errs)) :
    fs.statIsDir sh'.cwd = some true ∧ sh'.cwd ≠ [] ∧
    envGet sh'.env "OLDPWD".data = some sh.cwd ∧ sh'.cwd = np := by
  obtain ⟨hstat, hsh, -⟩ := cdFinish_success fs sh t np sh' errs hc
  subst hsh
  refine ⟨hstat, hnp, ?_, rfl⟩
  show envGet (envSet (envSet sh.env "OLDPWD".data sh.cwd) "PWD".data np)
    "OLDPWD".data = some sh.cwd
  rw [envGet_envSet, if_neg (by decide), envGet_envSet, if_pos rfl]

theorem cd_success (fs : FSM) (sh : ShellSt) (args : List Str) (sh' : ShellSt)
    (errs : List Str) (hc : cd fs sh args = (sh', 0, errs)) :
    fs.statIsDir sh'.cwd = some true ∧ sh'.cwd ≠ [] ∧
    envGet sh'.env "OLDPWD".data = some sh.cwd := by
  simp only [cd] at hc
  split at hc
  · obtain ⟨h1, h2, h3, -⟩ :=
      cdFinish_facts fs sh _ _ sh' errs (normalizePath_ne_nil _) hc
    exact ⟨h1, h2, h3⟩
  · split at hc
    · obtain ⟨h1, h2, h3, -⟩ := cdFinish_facts fs sh _ _ sh' errs
        (ite_ne_nil (jsOr_ne_nil _ _ (by decide)) (normalizePath_ne_nil _)) hc
      exact ⟨h1, h2, h3⟩
    · split at hc
      · split at hc
        · simp at hc
        · next oldPwd heq =>
          split at hc
          · simp at hc
          · next hne =>
            obtain ⟨h1, h2, h3, -⟩ := cdFinish_facts fs sh _ _ sh' errs hne hc
            exact ⟨h1, h2, h3⟩
      · obtain ⟨h1, h2, h3, -⟩ :=
          cdFinish_facts fs sh _ _ sh' errs (normalizePath_ne_nil _) hc
        exact ⟨h1, h2, h3⟩

theorem cd_dash (fs : FSM) (sh : ShellSt) (prev : Str)
    (hold : envGet sh.env "OLDPWD".data = some prev) (hne : prev ≠ [])
    (hstat : fs.statIsDir prev = some true) :
    cd fs sh [['-']] =
      (setCwd { sh with env := envSet sh.env "OLDPWD".data sh.cwd } prev, 0, []) := by
  simp only [cd]
  have ht : jsOr (List.head? [(['-'] : Str)]) (jsOr (envGet sh.env "HOME".data) ['/']) =
      ['-'] := by
    simp [jsOr]
  rw [ht, if_neg (by decide), if_neg (by decide), if_pos rfl]
  simp only [hold]
  rw [if_neg hne, cdFinish, hstat]

/-- C8: every successful `cd` records the pre-change cwd in `OLDPWD` before
changing directory, so after a successful `cd a`, `cd -` returns to the
prior directory and a second `cd -` returns to the directory entered after
`cd a`. -/
theorem c8_cd_oldpwd_roundtrip :
    ∀ (fs : FSM) (sh : ShellSt) (a : Str) (sh1 : ShellSt) (errs : List Str),
      cd fs sh [a] = (sh1, 0, errs) →
      fs.statIsDir sh.cwd = some true → sh.cwd ≠ [] →
      envGet sh1.env "OLDPWD".data = some sh.cwd ∧
      ∃ sh2, cd fs sh1 [['-']] = (sh2, 0, []) ∧ sh2.cwd = sh.cwd ∧
        ∃ sh3, cd fs sh2 [['-']] = (sh3, 0, []) ∧ sh3.cwd = sh1.cwd := by
  intro fs sh a sh1 errs h hstat0 hcwd0
  obtain ⟨hstat1, hne1, hold1⟩ := cd_success fs sh [a] sh1 errs h
  refine ⟨hold1, ?_⟩
  have h2 := cd_dash fs sh1 sh.cwd hold1 hcwd0 hstat0
  refine ⟨_, h2, rfl, ?_⟩
  have hold2 : envGet (setCwd { sh1 with env := envSet sh1.env "OLDPWD".data sh1.cwd }
      sh.cwd).env "OLDPWD".data = some sh1.cwd := by
    show envGet (envSet (envSet sh1.env "OLDPWD".data sh1.cwd) "PWD".data sh.cwd)
      "OLDPWD".data = some sh1.cwd
    rw [envGet_envSet, if_neg (by decide), envGet_envSet, if_pos rfl]
  have h3 := cd_dash fs _ sh1.cwd hold2 hne1 hstat1
  exact ⟨_, h3, rfl⟩

/-- Witness for C8 at a concrete state. -/
theorem c8_witness :
    envGet shW1.env "OLDPWD".data = some shW.cwd ∧
    ∃ sh2, cd fsW shW1 [['-']] = (sh2, 0, []) ∧ sh2.cwd = shW.cwd ∧
      ∃ sh3, cd fsW sh2 [['-']] = (sh3, 0, []) ∧ sh3.cwd = shW1.cwd :=
  c8_cd_oldpwd_roundtrip fsW shW "docs".data shW1 [] (by decide) (by decide) (by decide)

theorem cacheGet_cacheSet (c : Cache) (k : Str) (v : JSVal) (k2 : Str) :
    cacheGet (cacheSet c k v) k2 = if k2 = k then some v else cacheGet c k2 := by
  induction c with
  | nil =>
    by_cases h : k2 = k
    · subst h; simp [cacheGet, cacheSet]
    · have h' : ¬ k = k2 := fun hc => h hc.symm
      simp [cacheGet, cacheSet, h, h']
  | cons kv rest ih =>
    obtain ⟨k0, v0⟩ := kv
    by_cases h0 : k0 = k
    · subst h0
      by_cases h2 : k2 = k0
      · subst h2; simp [cacheGet, cacheSet]
      · have h2' : ¬ k0 = k2 := fun hc => h2 hc.symm
        simp [cacheGet, cacheSet, h2, h2']
    · by_cases h2 : k0 = k2
      · subst h2
        simp [cacheGet, cacheSet, h0, fun hc : k0 = k => h0 hc]
      · simp [cacheGet, cacheSet, h0, h2, ih]

/-- Characterization of a single resolution: either no loader ran and the
cache is untouched, or exactly one lazy loader ran, at a PATH directory
holding a lazy registry entry not yet cached, and its produced callable was
returned and cached under the full path. -/
theorem resolveGo_spec (re : ResolveEnv) (nm : Str) :
    ∀ (dirs : List Str) (c : Cache),
      ((resolveGo re nm dirs c).invoked = [] ∧ (resolveGo re nm dirs c).cache = c) ∨
      ∃ dir entry, dir ∈ dirs ∧
        re.existsSync (dir ++ '/' :: nm) = true ∧
        cacheGet c (dir ++ '/' :: nm) = none ∧
        getCommandFromPath re dir nm = some entry ∧
        isLazyCommand entry = true ∧
        (resolveGo re nm dirs c).invoked = [dir ++ '/' :: nm] ∧
        (resolveGo re nm dirs c).result = some (jsCall0 entry) ∧
        (resolveGo re nm dirs c).cache = cacheSet c (dir ++ '/' :: nm) (jsCall0 entry) := by
  intro dirs
  induction dirs with
  | nil => intro c; left; exact ⟨rfl, rfl⟩
  | cons dir rest ih =>
    intro c
    by_cases hex : re.existsSync (dir ++ '/' :: nm) = false
    · simp only [resolveGo, if_pos hex]
      rcases ih c with h | ⟨d, e, hmem, h⟩
      · left; exact h
      · right; exact ⟨d, e, List.mem_cons_of_mem _ hmem, h⟩
    · have hex' : re.existsSync (dir ++ '/' :: nm) = true := by
        revert hex; cases re.existsSync (dir ++ '/' :: nm) <;> simp
      cases hcg : cacheGet c (dir ++ '/' :: nm) with
      | some v =>
        left
        simp [resolveGo, if_neg hex, hcg]
      | none =>
        cases hgc : getCommandFromPath re dir nm with
        | none =>
          simp only [resolveGo, if_neg hex, hcg, hgc]
          rcases ih c with h | ⟨d, e, hmem, h⟩
          · left; exact h
          · right; exact ⟨d, e, List.mem_cons_of_mem _ hmem, h⟩
        | some entry =>
          by_cases hlz : isLazyCommand entry = true
          · right
            refine ⟨dir, entry, List.mem_cons_self _ _, hex', hcg, hgc, hlz, ?_, ?_, ?_⟩ <;>
              simp only [resolveGo, if_neg hex, hcg, hgc, if_pos hlz]
          · left
            simp [resolveGo, if_neg hex, hcg, hgc, if_neg hlz]

/-- Resolving again with the updated cache returns the same callable, the
same cache, and invokes no loader. -/
theorem resolveGo_rerun (re : ResolveEnv) (nm : Str) :
    ∀ (dirs : List Str) (c : Cache),
      resolveGo re nm dirs (resolveGo re nm dirs c).cache =
        ⟨(resolveGo re nm dirs c).result, (resolveGo re nm dirs c).cache, []⟩ := by
  intro dirs
  induction dirs with
  | nil => intro c; rfl
  | cons dir rest ih =>
    intro c
    by_cases hex : re.existsSync (dir ++ '/' :: nm) = false
    · simp only [resolveGo, if_pos hex]
      exact ih c
    · cases hcg : cacheGet c (dir ++ '/' :: nm) with
      | some v =>
        simp only [resolveGo, if_neg hex, hcg]
      | none =>
        cases hgc : getCommandFromPath re dir nm with
        | none =>
          have unfold_cont : ∀ cc, cacheGet cc (dir ++ '/' :: nm) = none →
              resolveGo re nm (dir :: rest) cc = resolveGo re nm rest cc := by
            intro cc hcc
            simp only [resolveGo, if_neg hex, hcc, hgc]
          have h2 : cacheGet (resolveGo re nm rest c).cache (dir ++ '/' :: nm) = none := by
            rcases resolveGo_spec re nm rest c with ⟨-, hcache⟩ |
              ⟨d, e, hmem, hex2, hcg2, hgc2, hlz2, hinv2, hres2, hcache2⟩
            · rw [hcache]; exact hcg
            · rw [hcache2, cacheGet_cacheSet, if_neg]
              · exact hcg
              · intro heq
                have hd : dir = d := List.append_left_injective _ heq
                rw [← hd] at hgc2
                rw [hgc] at hgc2
                exact Option.noConfusion hgc2
          rw [unfold_cont c hcg, unfold_cont _ h2]
          exact ih c
        | some entry =>
          by_cases hlz : isLazyCommand entry = true
          · have h1 : resolveGo re nm (dir :: rest) c =
                ⟨some (jsCall0 entry), cacheSet c (dir ++ '/' :: nm) (jsCall0 entry),
                  [dir ++ '/' :: nm]⟩ := by
              simp only [resolveGo, if_neg hex, hcg, hgc, if_pos hlz]
            have h2 : cacheGet (cacheSet c (dir ++ '/' :: nm) (jsCall0 entry))
                (dir ++ '/' :: nm) = some (jsCall0 entry) := by
              rw [cacheGet_cacheSet, if_pos rfl]
            rw [h1]
            simp only [resolveGo, if_neg hex, h2]
          · have h1 : resolveGo re nm (dir :: rest) c = ⟨some entry, c, []⟩ := by
              simp only [resolveGo, if_neg hex, hcg, hgc, if_neg hlz]
            rw [h1]
            simp only [resolveGo, if_neg hex, hcg, hgc, if_neg hlz]

/-- C2: per resolution, either no loader runs and the cache is unchanged
(in particular a Direct entry is returned uncached), or exactly one lazy
loader runs — at a PATH directory whose registry entry is lazy and not yet
cached — and the produced callable is returned and stored under the full
path; re-resolving with the updated cache returns the identical cached
callable and invokes no loader. -/
theorem c2_lazy_loader_cached_once :
    ∀ (re : ResolveEnv) (c : Cache) (nm : Str),
      (((resolveCommand re c nm).invoked = [] ∧ (resolveCommand re c nm).cache = c) ∨
        ∃ dir entry, dir ∈ pathDirs re ∧
          re.existsSync (dir ++ '/' :: nm) = true ∧
          cacheGet c (dir ++ '/' :: nm) = none ∧
          getCommandFromPath re dir nm = some entry ∧
          isLazyCommand entry = true ∧
          (resolveCommand re c nm).invoked = [dir ++ '/' :: nm] ∧
          (resolveCommand re c nm).result = some (jsCall0 entry) ∧
          (resolveCommand re c nm).cache =
            cacheSet c (dir ++ '/' :: nm) (jsCall0 entry)) ∧
      resolveCommand re (resolveCommand re c nm).cache nm =
        ⟨(resolveCommand re c nm).result, (resolveCommand re c nm).cache, []⟩ :=
  fun re c nm => ⟨resolveGo_spec re nm (pathDirs re) c, resolveGo_rerun re nm (pathDirs re) c⟩

/-- C9: the resolver classifies an entry as lazy exactly when the function
declares zero parameters — there is no explicit tag — so a "direct" command
registered as a zero-parameter function is invoked with no context as if it
were a loader and its return value is cached as the command. -/
theorem c9_arity_discrimination :
    (∀ (a : Nat) (z : JSVal), isLazyCommand (.func a z) = decide (a = 0)) ∧
    (∀ (re : ResolveEnv) (c : Cache) (nm dir : Str) (z : JSVal),
      pathDirs re = [dir] →
      re.existsSync (dir ++ '/' :: nm) = true →
      cacheGet c (dir ++ '/' :: nm) = none →
      getCommandFromPath re dir nm = some (.func 0 z) →
      resolveCommand re c nm =
        ⟨some z, cacheSet c (dir ++ '/' :: nm) z, [dir ++ '/' :: nm]⟩) := by
  constructor
  · intro a z
    cases a <;> simp [isLazyCommand]
  · intro re c nm dir z hdirs hex hcg hgc
    have hex' : ¬ re.existsSync (dir ++ '/' :: nm) = false := by
      rw [hex]; decide
    rw [resolveCommand, hdirs]
    simp only [resolveGo, if_neg hex', hcg, hgc]
    have hlz : isLazyCommand (JSVal.func 0 z) = true := rfl
    rw [if_pos hlz]
    rfl

/-- Witness for C9: the zero-parameter "direct" command is invoked as a
loader and its return value (the number 0, not a function) is cached. -/
theorem c9_witness :
    resolveCommand reW [] "pwd".data =
      ⟨some (.num 0), cacheSet [] ("/bin".data ++ '/' :: "pwd".data) (.num 0),
        ["/bin".data ++ '/' :: "pwd".data]⟩ :=
  c9_arity_discrimination.2 reW [] "pwd".data "/bin".data (.num 0)
    (by decide) (by decide) (by decide) (by decide)

/-- C1 (amended): when the parsed command name resolves to nothing across
all PATH directories, `executeCommand` writes `name: command not found` to
the error sink and leaves the environment — in particular the `?` variable
— unchanged; the exit-code variable is never set to `127`. -/
theorem c1_command_not_found :
    ∀ (ee : ExecEnv) (invoke : JSVal → ExecSt → ExecSt × InvokeRes) (st : ExecSt)
      (line : Str) (p : Parsed),
      parseCommand line = .ok (some p) →
      (resolveCommand (reOf ee st.env) st.cache p.name).result = none →
      executeCommand ee invoke st line =
        ({ st with cache := (resolveCommand (reOf ee st.env) st.cache p.name).cache },
          [p.name ++ ": command not found\r\n".data]) ∧
      (executeCommand ee invoke st line).1.env = st.env := by
  intro ee invoke st line p hp hr
  have hline : line ≠ [] := by
    intro h
    subst h
    have h0 : (Except.ok (ε := ParseErr) (none : Option Parsed)) = .ok (some p) := hp
    simp at h0
  constructor
  · simp only [executeCommand, if_neg hline, hp, hr]
  · simp only [executeCommand, if_neg hline, hp, hr]

/-- C1 counterexample: executing `nosuch` reports `command not found` to
the error sink, but `?` still holds `0` afterwards — not `127` as the
claim states. -/
theorem c1_counterexample :
    executeCommand eeC1 (fun _ s => (s, .ret none)) stC1 "nosuch".data =
      (stC1, ["nosuch".data ++ ": command not found\r\n".data]) ∧
    envGet (executeCommand eeC1 (fun _ s => (s, .ret none)) stC1 "nosuch".data).1.env
      ['?'] = some ['0'] ∧
    (some (['0'] : Str) ≠ some "127".data) := by
  exact ⟨by decide, by decide, by decide⟩

/-- Witness for C1 (amended) at the concrete state of the counterexample. -/
theorem c1_witness :
    executeCommand eeC1 (fun _ s => (s, .ret none)) stC1 "nosuch".data =
      ({ stC1 with cache := (resolveCommand (reOf eeC1 stC1.env) stC1.cache
          "nosuch".data).cache }, ["nosuch".data ++ ": command not found\r\n".data]) ∧
    (executeCommand eeC1 (fun _ s => (s, .ret none)) stC1 "nosuch".data).1.env = stC1.env :=
  c1_command_not_found eeC1 (fun _ s => (s, .ret none)) stC1 "nosuch".data
    ⟨"nosuch".data, []⟩ (by decide) (by decide)

/-- C3: the repository's own test (`completes single match for absolute
path /si`) expects Tab after `ls /si` to echo exactly the missing suffix
`te/`; instead the code slices the bare entry name `site/` by the length
of the whole typed token `/si` and echoes `e/`, leaving the buffer
`ls /sie/` rather than the typed text plus the missing characters
(`ls /site/`). -/
theorem c3_slash_completion_bug :
    handleTabCompletion fsC3 none none "/home/guest".data [] "ls /si".data =
      ("ls /sie/".data, ["e/".data]) ∧
    "ls /sie/".data ≠ "ls /site/".data := by
  exact ⟨by decide, by decide⟩
